import Mathlib

/-
  Verification of the "Spherical Nearest-Match" design described in the
  repository's specification.  The repository itself consists of two tutorial
  notebooks whose algorithmic steps (catalog matching via
  `match_to_catalog_sky`, symbolic lambdification via `lambdify`) are calls
  into external libraries; the specification makes the design of the matching
  core explicit (haversine distance, O(M·N) scan, lowest-index tie-break).
  The definitions below embed that design; the theorems settle the spec's
  claims against it.
-/

namespace SphericalMatch

/-- Modelled from the spec: a `SphericalPoint` is a pair of angular
coordinates (longitude-like, latitude-like), stored in radians internally.
The implementation of this data type is not in the repository (the notebook
delegates to an external coordinates library), so it is modelled from §3 of
the specification. -/
structure SphericalPoint where
  lon : ℝ
  lat : ℝ

instance : Inhabited SphericalPoint := ⟨⟨0, 0⟩⟩

/-- The §3 invariant: latitude-like component in [-π/2, π/2], longitude-like
component wrapped into [0, 2π). -/
def SphericalPoint.Valid (p : SphericalPoint) : Prop :=
  -(Real.pi / 2) ≤ p.lat ∧ p.lat ≤ Real.pi / 2 ∧
    0 ≤ p.lon ∧ p.lon < 2 * Real.pi

/-- Modelled from the spec: great-circle angular separation of two spherical
points by the haversine formula (§4.1).  The repository calls an external
library for this computation, so the formula is taken from the spec's
explicit design choice ("haversine distance"). -/
noncomputable def angularDistance (a b : SphericalPoint) : ℝ :=
  2 * Real.arcsin (Real.sqrt
    (Real.sin ((b.lat - a.lat) / 2) ^ 2 +
      Real.cos a.lat * Real.cos b.lat * Real.sin ((b.lon - a.lon) / 2) ^ 2))

/-- C3: for all valid points `a`, `b`, the angular distance lies in [0, π]. -/
theorem angularDistance_mem_Icc (a b : SphericalPoint)
    (ha : a.Valid) (hb : b.Valid) :
    0 ≤ angularDistance a b ∧ angularDistance a b ≤ Real.pi := by
  unfold angularDistance
  constructor
  · have h : 0 ≤ Real.arcsin (Real.sqrt
        (Real.sin ((b.lat - a.lat) / 2) ^ 2 +
          Real.cos a.lat * Real.cos b.lat * Real.sin ((b.lon - a.lon) / 2) ^ 2)) :=
      Real.arcsin_nonneg.mpr (Real.sqrt_nonneg _)
    linarith
  · have h := Real.arcsin_le_pi_div_two (Real.sqrt
      (Real.sin ((b.lat - a.lat) / 2) ^ 2 +
        Real.cos a.lat * Real.cos b.lat * Real.sin ((b.lon - a.lon) / 2) ^ 2))
    linarith

/-- Witness for C3 at the concrete valid point (0, 0). -/
theorem angularDistance_mem_Icc_witness :
    (SphericalPoint.mk 0 0).Valid ∧
      (0 ≤ angularDistance ⟨0, 0⟩ ⟨0, 0⟩ ∧
        angularDistance ⟨0, 0⟩ ⟨0, 0⟩ ≤ Real.pi) := by
  have hv : (SphericalPoint.mk 0 0).Valid := by
    refine ⟨?_, ?_, le_refl 0, ?_⟩ <;>
      simp [SphericalPoint.Valid] <;> positivity
  exact ⟨hv, angularDistance_mem_Icc ⟨0, 0⟩ ⟨0, 0⟩ hv hv⟩

/-- C4: the angular distance from a valid point to itself is zero. -/
theorem angularDistance_self (p : SphericalPoint) (hp : p.Valid) :
    angularDistance p p = 0 := by
  simp [angularDistance]

/-- Witness for C4 at the concrete valid point (0, 0). -/
theorem angularDistance_self_witness :
    (SphericalPoint.mk 0 0).Valid ∧ angularDistance ⟨0, 0⟩ ⟨0, 0⟩ = 0 := by
  have hv : (SphericalPoint.mk 0 0).Valid := by
    refine ⟨?_, ?_, le_refl 0, ?_⟩ <;>
      simp [SphericalPoint.Valid] <;> positivity
  exact ⟨hv, angularDistance_self ⟨0, 0⟩ hv⟩

/-- C5: the angular distance is symmetric in its two arguments. -/
theorem angularDistance_comm (a b : SphericalPoint)
    (ha : a.Valid) (hb : b.Valid) :
    angularDistance a b = angularDistance b a := by
  unfold angularDistance
  have hsin : ∀ x y : ℝ, Real.sin ((x - y) / 2) ^ 2 = Real.sin ((y - x) / 2) ^ 2 := by
    intro x y
    rw [show (x - y) / 2 = -((y - x) / 2) by ring, Real.sin_neg, neg_sq]
  rw [hsin b.lat a.lat, hsin b.lon a.lon, mul_comm (Real.cos a.lat) (Real.cos b.lat)]

/-- Witness for C5 at the concrete valid points (0, 0) and (0, 0). -/
theorem angularDistance_comm_witness :
    (SphericalPoint.mk 0 0).Valid ∧
      angularDistance ⟨0, 0⟩ ⟨0, 0⟩ = angularDistance ⟨0, 0⟩ ⟨0, 0⟩ := by
  have hv : (SphericalPoint.mk 0 0).Valid := by
    refine ⟨?_, ?_, le_refl 0, ?_⟩ <;>
      simp [SphericalPoint.Valid] <;> positivity
  exact ⟨hv, angularDistance_comm ⟨0, 0⟩ ⟨0, 0⟩ hv hv⟩

/-- Modelled from the spec: the error kinds of §7.  The repository surfaces
no error type of its own (errors would come from the external library), so
the kinds are taken from the spec's error-handling design. -/
inductive MatchError where
  | InvalidCoordinate
  | EmptyCandidateSet
  | ShapeMismatch
deriving DecidableEq, Repr

open Classical in
/-- Modelled from the spec: boundary-checked angular distance (§4.1, §7).
Inputs outside the valid coordinate ranges are rejected with
`InvalidCoordinate` rather than silently wrapped; in-range inputs succeed
with the haversine separation. -/
noncomputable def angularDistanceChecked (a b : SphericalPoint) :
    Except MatchError ℝ :=
  if a.Valid ∧ b.Valid then .ok (angularDistance a b)
  else .error .InvalidCoordinate

/-- Linear scan over the remaining candidates, carrying the index `j` of the
next candidate and the best (index, distance) pair seen so far.  A candidate
replaces the incumbent only when its distance is strictly smaller, which
realises the lowest-index tie-break of §4.2. -/
noncomputable def scanMin (q : SphericalPoint) :
    List SphericalPoint → ℕ → ℕ × ℝ → ℕ × ℝ
  | [], _, best => best
  | c :: cs, j, best =>
      if angularDistance q c < best.2 then
        scanMin q cs (j + 1) (j, angularDistance q c)
      else
        scanMin q cs (j + 1) best

/-- Best match of a query against a non-empty candidate list given as head
and tail: start from candidate 0 and scan the rest. -/
noncomputable def bestMatch (q c₀ : SphericalPoint)
    (cs : List SphericalPoint) : ℕ × ℝ :=
  scanMin q cs 1 (0, angularDistance q c₀)

/-- Modelled from the spec: Nearest Neighbor Search (§4.2).  The repository
performs this step by one call into an external library
(`match_to_catalog_sky`), so the O(M·N) full scan with lowest-index
tie-break is modelled from the spec's documented algorithmic choice.
Fails with `EmptyCandidateSet` when the candidate set is empty. -/
noncomputable def nearestNeighborSearch (qs : List SphericalPoint) :
    List SphericalPoint → Except MatchError (List (ℕ × ℝ))
  | [] => .error .EmptyCandidateSet
  | c₀ :: cs => .ok (qs.map fun q => bestMatch q c₀ cs)

/-- `IsBest q cs r` says the pair `r = (j*, d*)` is the correct match of
query `q` against candidate list `cs`: `j*` is in range, `d*` is the
distance to candidate `j*`, `d*` is minimal over all candidates, and every
candidate with a lower index is at strictly greater distance (the
lowest-index tie-break). -/
def IsBest (q : SphericalPoint) (cs : List SphericalPoint) (r : ℕ × ℝ) : Prop :=
  r.1 < cs.length ∧
    r.2 = angularDistance q (cs.getD r.1 default) ∧
    (∀ k, k < cs.length → r.2 ≤ angularDistance q (cs.getD k default)) ∧
    (∀ k, k < r.1 → r.2 < angularDistance q (cs.getD k default))

/-- Invariant of the scan: if `b` is the correct match over an already
processed prefix, then scanning the remaining candidates (whose first index
is the prefix length) yields the correct match over the whole list. -/
lemma scanMin_isBest (q : SphericalPoint) :
    ∀ (cs pre : List SphericalPoint) (b : ℕ × ℝ),
      IsBest q pre b → IsBest q (pre ++ cs) (scanMin q cs pre.length b)
  | [], pre, b, hb => by simpa [scanMin] using hb
  | c :: cs, pre, b, hb => by
    obtain ⟨hblt, hbval, hble, hbtie⟩ := hb
    have hgetc : (pre ++ [c]).getD pre.length default = c := by
      rw [List.getD_append_right _ _ _ _ (le_refl _), Nat.sub_self]
      rfl
    have hkey : IsBest q ((pre ++ [c]) ++ cs)
        (scanMin q (c :: cs) pre.length b) := by
      simp only [scanMin]
      split
      case isTrue hlt =>
        have hb' : IsBest q (pre ++ [c]) (pre.length, angularDistance q c) := by
          refine ⟨by simp, by rw [hgetc], ?_, ?_⟩
          · intro k hk
            simp only [List.length_append, List.length_cons, List.length_nil] at hk
            rcases Nat.lt_succ_iff_lt_or_eq.mp hk with hk' | hk'
            · rw [List.getD_append _ _ _ _ hk']
              exact le_of_lt (lt_of_lt_of_le hlt (hble k hk'))
            · rw [hk', hgetc]
          · intro k hk
            rw [List.getD_append _ _ _ _ hk]
            exact lt_of_lt_of_le hlt (hble k hk)
        have := scanMin_isBest q cs (pre ++ [c])
          (pre.length, angularDistance q c) hb'
        simpa [List.length_append] using this
      case isFalse hge =>
        push_neg at hge
        have hb' : IsBest q (pre ++ [c]) b := by
          refine ⟨?_, ?_, ?_, ?_⟩
          · simp only [List.length_append, List.length_cons, List.length_nil]
            omega
          · rw [List.getD_append _ _ _ _ hblt]
            exact hbval
          · intro k hk
            simp only [List.length_append, List.length_cons, List.length_nil] at hk
            rcases Nat.lt_succ_iff_lt_or_eq.mp hk with hk' | hk'
            · rw [List.getD_append _ _ _ _ hk']
              exact hble k hk'
            · rw [hk', hgetc]
              exact hge
          · intro k hk
            rw [List.getD_append _ _ _ _ (lt_trans hk hblt)]
            exact hbtie k hk
        have := scanMin_isBest q cs (pre ++ [c]) b hb'
        simpa [List.length_append] using this
    simpa [List.append_assoc] using hkey

/-- The scan started at candidate 0 produces the correct match over the full
non-empty candidate list. -/
lemma bestMatch_isBest (q c₀ : SphericalPoint) (cs : List SphericalPoint) :
    IsBest q (c₀ :: cs) (bestMatch q c₀ cs) := by
  have h0 : IsBest q [c₀] (0, angularDistance q c₀) := by
    refine ⟨by simp, by simp, ?_, by simp⟩
    intro k hk
    simp only [List.length_cons, List.length_nil] at hk
    interval_cases k
    simp
  have h := scanMin_isBest q cs [c₀] (0, angularDistance q c₀) h0
  simpa [bestMatch] using h

/-- C1: for every query list and non-empty candidate list, the search
succeeds with a result of the same length as the query list, and the `i`-th
result pair `(j*, d*)` satisfies: `j*` indexes a candidate, `d*` is the
angular distance from query `i` to candidate `j*`, `d*` is the minimum over
all candidates, and every candidate of lower index than `j*` lies at
strictly greater distance (lowest-index tie-break). -/
theorem nearestNeighborSearch_correct (qs cs : List SphericalPoint)
    (hcs : cs ≠ []) :
    ∃ res, nearestNeighborSearch qs cs = .ok res ∧
      res.length = qs.length ∧
      ∀ i, i < qs.length → IsBest (qs.getD i default) cs (res.getD i default) := by
  cases cs with
  | nil => exact absurd rfl hcs
  | cons c₀ cs' =>
    refine ⟨qs.map fun q => bestMatch q c₀ cs', rfl, List.length_map _ _, ?_⟩
    intro i hi
    have hi' : i < (qs.map fun q => bestMatch q c₀ cs').length := by
      simpa using hi
    rw [List.getD_eq_getElem _ _ hi', List.getElem_map,
      ← List.getD_eq_getElem qs default hi]
    exact bestMatch_isBest _ c₀ cs'

/-- Witness for C1: a one-point query against a one-point candidate list. -/
theorem nearestNeighborSearch_correct_witness :
    ([(⟨0, 0⟩ : SphericalPoint)] ≠ []) ∧
      ∃ res, nearestNeighborSearch [(⟨1, 1⟩ : SphericalPoint)] [⟨0, 0⟩] = .ok res ∧
        res.length = [(⟨1, 1⟩ : SphericalPoint)].length ∧
        ∀ i, i < [(⟨1, 1⟩ : SphericalPoint)].length →
          IsBest ([(⟨1, 1⟩ : SphericalPoint)].getD i default)
            [⟨0, 0⟩] (res.getD i default) :=
  ⟨List.cons_ne_nil _ _,
    nearestNeighborSearch_correct [⟨1, 1⟩] [⟨0, 0⟩] (List.cons_ne_nil _ _)⟩

/-- C2: the search fails with `EmptyCandidateSet` exactly when the candidate
set is empty (in particular for every non-empty query against an empty
candidate set), and `EmptyCandidateSet` arises in no other case. -/
theorem nearestNeighborSearch_empty_iff (qs cs : List SphericalPoint) :
    nearestNeighborSearch qs cs = .error .EmptyCandidateSet ↔ cs = [] := by
  cases cs <;> simp [nearestNeighborSearch]

/-- C8: the search is deterministic — two runs on identical query and
candidate point sets return identical match results. -/
theorem nearestNeighborSearch_deterministic
    (qs₁ qs₂ cs₁ cs₂ : List SphericalPoint)
    (hq : qs₁ = qs₂) (hc : cs₁ = cs₂) :
    nearestNeighborSearch qs₁ cs₁ = nearestNeighborSearch qs₂ cs₂ := by
  rw [hq, hc]

/-- Witness for C8 at concrete one-point query and candidate lists. -/
theorem nearestNeighborSearch_deterministic_witness :
    ([(⟨0, 0⟩ : SphericalPoint)] = [⟨0, 0⟩]) ∧
      ([(⟨1, 0⟩ : SphericalPoint)] = [⟨1, 0⟩]) ∧
      nearestNeighborSearch [⟨0, 0⟩] [⟨1, 0⟩] =
        nearestNeighborSearch [⟨0, 0⟩] [⟨1, 0⟩] :=
  ⟨rfl, rfl, nearestNeighborSearch_deterministic _ _ _ _ rfl rfl⟩

/-- C6: the boundary-checked distance signals `InvalidCoordinate` exactly
when an input lies outside the valid coordinate ranges, and for in-range
inputs it succeeds (synchronously, at the call itself) with the haversine
separation — no silent wrapping, no other failure mode. -/
theorem angularDistanceChecked_error_iff (a b : SphericalPoint) :
    (angularDistanceChecked a b = .error .InvalidCoordinate ↔
      ¬(a.Valid ∧ b.Valid)) ∧
    (angularDistanceChecked a b = .ok (angularDistance a b) ↔
      (a.Valid ∧ b.Valid)) := by
  by_cases h : a.Valid ∧ b.Valid <;>
    simp [angularDistanceChecked, h]

/-- Longitude wrapping into [0, 2π): subtract the integer multiple of 2π. -/
noncomputable def wrapTwoPi (x : ℝ) : ℝ :=
  2 * Real.pi * Int.fract (x / (2 * Real.pi))

open Classical in
/-- Modelled from the spec: construction of a `SphericalPoint` at the input
boundary (§3, §6, §7).  Degrees are accepted, converted to radians, the
longitude-like component is wrapped into [0, 2π), and an out-of-range
latitude is rejected with `InvalidCoordinate` (out-of-range after the
normalization attempt) rather than silently wrapped. -/
noncomputable def mkSphericalPoint (lonDeg latDeg : ℝ) :
    Except MatchError SphericalPoint :=
  if -(Real.pi / 2) ≤ latDeg * Real.pi / 180 ∧
      latDeg * Real.pi / 180 ≤ Real.pi / 2 then
    .ok ⟨wrapTwoPi (lonDeg * Real.pi / 180), latDeg * Real.pi / 180⟩
  else .error .InvalidCoordinate

/-- The wrapped longitude lies in [0, 2π). -/
lemma wrapTwoPi_mem (x : ℝ) : 0 ≤ wrapTwoPi x ∧ wrapTwoPi x < 2 * Real.pi := by
  have h2pi : (0 : ℝ) < 2 * Real.pi := by positivity
  constructor
  · exact mul_nonneg h2pi.le (Int.fract_nonneg _)
  · calc 2 * Real.pi * Int.fract (x / (2 * Real.pi))
        < 2 * Real.pi * 1 :=
          (mul_lt_mul_left h2pi).mpr (Int.fract_lt_one _)
      _ = 2 * Real.pi := mul_one _

/-- C7: every point constructed at the input boundary satisfies the §3
invariant — latitude in [-π/2, π/2] and longitude wrapped into [0, 2π)
(all operations consume points immutably, so the invariant is preserved). -/
theorem mkSphericalPoint_valid (lonDeg latDeg : ℝ) (p : SphericalPoint)
    (h : mkSphericalPoint lonDeg latDeg = .ok p) : p.Valid := by
  rw [mkSphericalPoint] at h
  split at h
  case isTrue hc =>
    cases h
    exact ⟨hc.1, hc.2, (wrapTwoPi_mem _).1, (wrapTwoPi_mem _).2⟩
  case isFalse => cases h

/-- Witness for C7 at the concrete boundary input (0°, 0°). -/
theorem mkSphericalPoint_valid_witness :
    mkSphericalPoint 0 0 =
        .ok ⟨wrapTwoPi (0 * Real.pi / 180), 0 * Real.pi / 180⟩ ∧
      (SphericalPoint.mk (wrapTwoPi (0 * Real.pi / 180))
        (0 * Real.pi / 180)).Valid := by
  have heq : mkSphericalPoint 0 0 =
      .ok ⟨wrapTwoPi (0 * Real.pi / 180), 0 * Real.pi / 180⟩ := by
    rw [mkSphericalPoint, if_pos]
    constructor <;> simp <;> positivity
  exact ⟨heq, mkSphericalPoint_valid 0 0 _ heq⟩

end SphericalMatch

namespace KamodoModel

/-- Modelled from the spec: the repository's second notebook parses the
string `x**2-x-1` into a symbolic expression and lambdifies it; the
implementations of `parse_expr` and `lambdify` live in the external
kamodo/sympy libraries and are absent from the repository, so a small
symbolic-expression type is modelled here.  A symbol is identified by its
character name. -/
inductive SymExpr where
  | sym : Char → SymExpr
  | intConst : Int → SymExpr
  | add : SymExpr → SymExpr → SymExpr
  | sub : SymExpr → SymExpr → SymExpr
  | mul : SymExpr → SymExpr → SymExpr
  | pow : SymExpr → Nat → SymExpr
deriving DecidableEq

/-- Direct numeric evaluation of a symbolic expression in an environment
assigning integers to symbols. -/
def SymExpr.eval (env : Char → Int) : SymExpr → Int
  | .sym s => env s
  | .intConst n => n
  | .add a b => a.eval env + b.eval env
  | .sub a b => a.eval env - b.eval env
  | .mul a b => a.eval env * b.eval env
  | .pow a n => a.eval env ^ n

/-- The free symbols of an expression (sympy's `free_symbols`). -/
def SymExpr.freeSymbols : SymExpr → List Char
  | .sym s => [s]
  | .intConst _ => []
  | .add a b => a.freeSymbols ++ b.freeSymbols
  | .sub a b => a.freeSymbols ++ b.freeSymbols
  | .mul a b => a.freeSymbols ++ b.freeSymbols
  | .pow a _ => a.freeSymbols

/-- The expression the notebook parses from the string `x**2-x-1`:
`(x² - x) - 1`. -/
def expr : SymExpr :=
  .sub (.sub (.pow (.sym 'x') 2) (.sym 'x')) (.intConst 1)

/-- Modelled from the spec: kamodo/sympy `lambdify` — absent from the
repository — turns an expression over the given variables into a numeric
function; with one variable, the function substitutes its argument for that
symbol and evaluates. -/
def lambdify (vars : List Char) (e : SymExpr) : Int → Int :=
  fun n => e.eval fun s => if s ∈ vars then n else 0

/-- The notebook's lambdified function `f = lambdify(expr.free_symbols, expr)`. -/
def f : Int → Int := lambdify expr.freeSymbols expr

/-- C9: the lambdified function agrees with direct evaluation of the parsed
expression: `f n = n² - n - 1` for every integer `n`, and in particular
`f 3 = 5`, the notebook's assertion `f(3) == (3**2)-3-1`. -/
theorem f_eq_direct_eval : (∀ n : Int, f n = n ^ 2 - n - 1) ∧ f 3 = 5 := by
  constructor
  · intro n
    simp [f, lambdify, expr, SymExpr.eval, SymExpr.freeSymbols]
  · decide

end KamodoModel
